import Mathlib

/-!
Verification development for the ChatCode collaborative-coding server and
client. The definitions below are shallow embeddings of the presence
registry, signaling relay, debounced document writer, REST and socket join
routes, and the WebRTC peer-connection orchestration of the repository.
JavaScript `Map` objects are modelled as association lists with JS `Map.set`
semantics (update in place, insertion order preserved), and JS string
truthiness is modelled by `truthy`.
-/

namespace ChatCode

/-! ## Association maps with JS `Map` semantics -/

/-- JS string truthiness: the empty string (and an absent field modelled as
the empty string) is falsy. -/
def truthy (s : String) : Bool :=
  !s.isEmpty

/-- `Map.get` / lookup: first (and, for maps built by `aset`, only) binding
of the key. -/
def alookup {α : Type} : List (String × α) → String → Option α
  | [], _ => none
  | p :: m, k => if p.1 = k then some p.2 else alookup m k

/-- JS `Map.set`: if the key is present, update its value in place (keeping
its position); otherwise append the new binding at the end. -/
def aset {α : Type} (m : List (String × α)) (k : String) (v : α) : List (String × α) :=
  if m.any (fun p => decide (p.1 = k)) then
    m.map (fun p => if p.1 = k then (k, v) else p)
  else
    m ++ [(k, v)]

/-- JS `Map.delete`. -/
def aerase {α : Type} (m : List (String × α)) (k : String) : List (String × α) :=
  m.filter (fun p => decide (p.1 ≠ k))

/-! ## Presence registry (server/socket.js, src/unnamed/part_005)

`activeUsers` is a `Map` from room id to an array of user objects; each
entry records the user id and the socket (connection) id. -/

/-- One element of a room's `activeUsers` array, as pushed by the
`joinRoom` handler. -/
structure UserEntry where
  id : String
  socketId : String
  username : String
  avatar : String
  displayName : String
  firstName : String
  isCreator : Bool
deriving Repr, DecidableEq

/-- Abbreviation used by concrete examples: an entry with empty profile
fields. -/
def mkEntry (userId sockId : String) : UserEntry :=
  { id := userId, socketId := sockId, username := "", avatar := "",
    displayName := "", firstName := "", isCreator := false }

/-- `getUniqueActiveUsers`: deduplicate a room's entry array by user id via
a JS `Map` keyed on `user.id` (later entries overwrite earlier ones), then
return the map's values. -/
def getUniqueActiveUsers (users : List UserEntry) : List UserEntry :=
  (users.foldl (fun m u => aset m u.id u) []).map (·.2)

/-- The `joinRoom` handler's `activeUsers` update: if the room has no
array yet, start from an empty one; otherwise first remove every existing
entry of the same user ("in case they reconnected"); then push the new
entry. -/
def registerConnection (rooms : List (String × List UserEntry)) (roomId : String)
    (u : UserEntry) : List (String × List UserEntry) :=
  let base :=
    match alookup rooms roomId with
    | none => []
    | some es => es.filter (fun e => decide (e.id ≠ u.id))
  aset rooms roomId (base ++ [u])

/-- Events the hub emits to a room while mutating presence state. -/
inductive Emitted where
  | userLeft (roomId : String) (userId : String) (users : List UserEntry)
  | participantCount (roomId : String) (count : Nat)
  | activeUsersList (roomId : String) (users : List UserEntry)
deriving Repr, DecidableEq

/-- Recognizer for `userLeft` events. -/
def isUserLeft : Emitted → Bool
  | .userLeft _ _ _ => true
  | _ => false

/-- `updateParticipantCount`: broadcast the deduplicated count and the
deduplicated user list. -/
def countEvents (roomId : String) (users : List UserEntry) : List Emitted :=
  [.participantCount roomId (getUniqueActiveUsers users).length,
   .activeUsersList roomId (getUniqueActiveUsers users)]

/-- The body of the `disconnect` handler's per-room loop: find the entry of
the disconnected socket; remove every entry with that socket id; if the
room still has entries, emit `userLeft` only when the user has no other
socket left (checked against the deduplicated view) and then broadcast the
updated count; if the room became empty, delete it silently. Returns the
new room value (`none` = deleted) and the emitted events. -/
def disconnectRoomStep (roomId : String) (users : List UserEntry) (sockId : String) :
    Option (List UserEntry) × List Emitted :=
  match users.find? (fun u => decide (u.socketId = sockId)) with
  | none => (some users, [])
  | some dUser =>
    let updated := users.filter (fun u => decide (u.socketId ≠ sockId))
    if updated.isEmpty then
      (none, [])
    else
      let stillActive := (getUniqueActiveUsers updated).any (fun u => decide (u.id = dUser.id))
      let leftEvents : List Emitted :=
        if stillActive then [] else [.userLeft roomId dUser.id (getUniqueActiveUsers updated)]
      (some updated, leftEvents ++ countEvents roomId updated)

/-- The `disconnect` handler: iterate over every room of `activeUsers`,
applying `disconnectRoomStep`. -/
def disconnectStep (rooms : List (String × List UserEntry)) (sockId : String) :
    List (String × List UserEntry) × List Emitted :=
  rooms.foldl
    (fun acc r =>
      match disconnectRoomStep r.1 r.2 sockId with
      | (some us, evs) => (acc.1 ++ [(r.1, us)], acc.2 ++ evs)
      | (none, evs) => (acc.1, acc.2 ++ evs))
    ([], [])

/-- The `leaveRoom` handler: when the room is tracked, remove the entry
matching both the user id and the socket id, store the updated array (or
delete the room if it became empty), and unconditionally emit `userLeft`
followed by the updated count. -/
def leaveRoomStep (rooms : List (String × List UserEntry)) (roomId userId sockId : String) :
    List (String × List UserEntry) × List Emitted :=
  if truthy roomId && truthy userId && (alookup rooms roomId).isSome then
    let users := (alookup rooms roomId).getD []
    let updated := users.filter (fun u => decide (¬(u.id = userId ∧ u.socketId = sockId)))
    let rooms' := if updated.isEmpty then aerase rooms roomId else aset rooms roomId updated
    let remaining := if updated.isEmpty then [] else updated
    (rooms',
      [.userLeft roomId userId (getUniqueActiveUsers remaining)] ++ countEvents roomId remaining)
  else
    (rooms, [])

/-! ## Debounced document persistence and cursor broadcast
(src/unnamed/part_005, `saveCodeToDatabase` and the `codeChange` /
`cursorChange` handlers). The `saveTimeouts` map is keyed by room id and
rooms never interact; the state below tracks one room's timer and the
writes performed for it. Times are in milliseconds. -/

/-- The quiet window of `saveCodeToDatabase` (300 ms of inactivity). -/
def saveDelay : Nat := 300

/-- One room's debounce state: the pending timer (fire time, code,
language), if any, and the persisted writes so far (fire time, code,
language). -/
structure SaveSt where
  pending : Option (Nat × String × String)
  writes : List (Nat × String × String)
deriving Repr, DecidableEq

/-- Let the pending timer fire if its fire time has been reached by `now`:
the write is issued and the timeout entry is deleted. -/
def flushDue (st : SaveSt) (now : Nat) : SaveSt :=
  match st.pending with
  | some p => if p.1 ≤ now then { pending := none, writes := st.writes ++ [p] } else st
  | none => st

/-- `saveCodeToDatabase` at time `t`: any timer that already fired has
performed its write; a still-pending timer is cancelled (`clearTimeout`);
a fresh timer is scheduled `saveDelay` ms from now with the new delta. -/
def saveCodeToDatabase (st : SaveSt) (t : Nat) (code lang : String) : SaveSt :=
  let st' := flushDue st t
  { st' with pending := some (t + saveDelay, code, lang) }

/-- Run a sequence of timestamped `codeChange` persistence requests for one
room. -/
def runCodeChanges (st : SaveSt) (evs : List (Nat × String × String)) : SaveSt :=
  evs.foldl (fun s e => saveCodeToDatabase s e.1 e.2.1 e.2.2) st

/-- Let the last pending timer fire (no further events arrive). -/
def finalizeSaves (st : SaveSt) : SaveSt :=
  match st.pending with
  | some p => { pending := none, writes := st.writes ++ [p] }
  | none => st

/-- Payload of a relayed cursor update. -/
structure CursorMsg where
  position : String
  userId : String
  name : String
deriving Repr, DecidableEq

/-- The `cursorChange` handler: when room id, position and user id are all
truthy, broadcast the cursor position to every other connection in the
room (`socket.to(roomId)`); the handler never touches the persistence
state. `conns` is the room's connection list and `senderConn` the emitting
socket. -/
def cursorChange (conns : List String) (senderConn : String) (st : SaveSt)
    (roomId position userId name : String) : SaveSt × List (String × CursorMsg) :=
  if truthy roomId && truthy position && truthy userId then
    (st, (conns.filter (fun c => decide (c ≠ senderConn))).map
          (fun c => (c, { position := position, userId := userId, name := name })))
  else
    (st, [])

/-! ## Signaling relay (src/unnamed/part_005, `offer` / `answer` /
`iceCandidate` / `retryConnection` handlers) -/

/-- The four relayed negotiation message kinds. -/
inductive SignalKind where
  | offer
  | answer
  | iceCandidate
  | retryRequest
deriving Repr, DecidableEq

/-- One delivery performed by the relay: the receiving connection, the
sender id stamped into the forwarded payload, and the kind. -/
structure Delivery where
  recipient : String
  sender : String
  kind : SignalKind
deriving Repr, DecidableEq

/-- The relay handlers: when both the room id and the target id are truthy,
`io.to(target).emit(kind, { ...data, sender: socket.id })` delivers the
message to exactly the connections whose id equals the target (none when
the target is gone — only a console log happens, nothing is sent back to
the sender); otherwise only a console error is logged. -/
def relaySignal (conns : List String) (senderId : String) (kind : SignalKind)
    (roomId target : String) : List Delivery :=
  if truthy roomId && truthy target then
    (conns.filter (fun c => decide (c = target))).map
      (fun c => { recipient := c, sender := senderId, kind := kind })
  else
    []

/-! ## Room access (server/routes/room.js REST join route and the
src/unnamed/part_005 socket `joinRoom` access check) -/

/-- The room fields read by the authorization paths: owner id, privacy
flag, optional password, ordered participant user ids, share-list user
ids. -/
structure Room where
  owner : String
  isPrivate : Bool
  password : Option String
  participants : List String
  sharedWith : List String
deriving Repr, DecidableEq

/-- Outcome of `POST /rooms/:id/join` once the room was found. -/
inductive RestJoinResult where
  | passwordMissing
  | passwordInvalid
  | joined (room : Room)
deriving Repr, DecidableEq

/-- The REST join route (room.js): if the room has a password, a missing
(or falsy) request password yields 401 "Password is required" and a
mismatch yields 401 "Invalid room password" — for every caller, with no
owner / share-list / participant exemption; then the caller is appended to
the participant list if absent. -/
def restJoin (room : Room) (userId : String) (reqPassword : Option String) : RestJoinResult :=
  let supplied := (reqPassword.getD "")
  let afterAdd :=
    if userId ∈ room.participants then room
    else { room with participants := room.participants ++ [userId] }
  match room.password with
  | some pw =>
    if ¬truthy supplied then .passwordMissing
    else if supplied ≠ pw then .passwordInvalid
    else .joined afterAdd
  | none => .joined afterAdd

/-- The socket `joinRoom` payload. The handler destructures only `roomId`
and `userId`; the password field is carried by the client
(`WebSocketService.joinRoom`) but never read. -/
structure JoinRoomMsg where
  roomId : String
  userId : String
  password : Option String
deriving Repr, DecidableEq

/-- Outcome of the socket `joinRoom` handler. `registered` records whether
the caller is the room creator and whether the durable participant list
was extended; `spectator` is the source's behaviour when the user lookup
fails (the registration block is skipped but room data is still sent). -/
inductive SocketJoinOutcome where
  | invalidData
  | roomNotFound
  | passwordDenied
  | registered (isCreator : Bool) (addedToParticipants : Bool)
  | spectator
deriving Repr, DecidableEq

/-- The socket `joinRoom` handler (src/unnamed/part_005): reject falsy
ids; when the user exists, fetch the room (error when missing), and for a
room that is both password-protected and private admit only the owner,
share-list members and recorded participants — rejecting everyone else
with "This room requires a password to join" without ever consulting a
password; on success the user is appended to the durable participant list
when absent. -/
def socketJoinRoomHandler (rooms : List (String × Room)) (users : List String)
    (m : JoinRoomMsg) : SocketJoinOutcome :=
  if ¬(truthy m.roomId && truthy m.userId) then .invalidData
  else if m.userId ∈ users then
    match alookup rooms m.roomId with
    | none => .roomNotFound
    | some room =>
      let isOwner := room.owner = m.userId
      let isShared := m.userId ∈ room.sharedWith
      let isPart := m.userId ∈ room.participants
      if room.password.isSome = true ∧ room.isPrivate = true then
        if ¬isOwner ∧ ¬isShared ∧ ¬isPart then .passwordDenied
        else .registered (decide isOwner) (decide ¬isPart)
      else .registered (decide isOwner) (decide ¬isPart)
  else
    match alookup rooms m.roomId with
    | none => .roomNotFound
    | some _ => .spectator

/-! ## Client peer-connection orchestration (src/unnamed/part_002,
VideoChat). Peer connections and the per-peer ICE candidate buffer are JS
`Map`s keyed by the remote connection id. SDP bodies are abstracted to
strings; `createOffer` / `createAnswer` results are the tokens "offer" and
"answer". -/

/-- The relevant state of one `RTCPeerConnection`: the remote and local
session descriptions and the ICE candidates added so far, in order. -/
structure PeerConn where
  remoteDesc : Option String
  localDesc : Option String
  candidates : List String
deriving Repr, DecidableEq

/-- A freshly constructed peer connection. -/
def newPeerConn : PeerConn :=
  { remoteDesc := none, localDesc := none, candidates := [] }

/-- Per-client state: `peerConnections` and `iceCandidatesBuffer`. -/
structure ClientState where
  peers : List (String × PeerConn)
  buffer : List (String × List String)
deriving Repr, DecidableEq

/-- Signaling messages the client emits. -/
inductive OutMsg where
  | offer (sender target : String)
  | answer (sender target : String)
deriving Repr, DecidableEq

/-- `createPeerConnection`: reuse an existing connection for the remote id
if present; otherwise construct one and, only when the local id is
lexicographically smaller than the remote id, create and send the initial
offer. -/
def createPeerConnection (localId : String) (st : ClientState) (remoteId : String) :
    ClientState × List OutMsg :=
  match alookup st.peers remoteId with
  | some _ => (st, [])
  | none =>
    if localId < remoteId then
      ({ st with peers := aset st.peers remoteId { newPeerConn with localDesc := some "offer" } },
       [.offer localId remoteId])
    else
      ({ st with peers := aset st.peers remoteId newPeerConn }, [])

/-- The `onnegotiationneeded` callback of a connection: only the peer with
the lexicographically smaller id creates and sends the offer. -/
def onNegotiationNeeded (localId : String) (st : ClientState) (remoteId : String) :
    ClientState × List OutMsg :=
  match alookup st.peers remoteId with
  | none => (st, [])
  | some pc =>
    if localId < remoteId then
      ({ st with peers := aset st.peers remoteId { pc with localDesc := some "offer" } },
       [.offer localId remoteId])
    else
      (st, [])

/-- `handleStreamReady`: when another peer reports its media is ready and a
connection for it exists, create and send a renegotiation offer —
unconditionally, with no comparison of the two ids; without a connection,
fall back to `createPeerConnection`. -/
def handleStreamReady (localId : String) (st : ClientState) (fromUserId : String) :
    ClientState × List OutMsg :=
  if fromUserId = localId then (st, [])
  else
    match alookup st.peers fromUserId with
    | some pc =>
      ({ st with peers := aset st.peers fromUserId { pc with localDesc := some "offer" } },
       [.offer localId fromUserId])
    | none => createPeerConnection localId st fromUserId

/-- `handleConnectionRetry`: close and delete any existing connection for
the requesting peer, then recreate it (the offer, if any, comes from the
order guard inside `createPeerConnection`). -/
def handleConnectionRetry (localId : String) (st : ClientState) (sender : String) :
    ClientState × List OutMsg :=
  let st1 := { st with peers := aerase st.peers sender }
  createPeerConnection localId st1 sender

/-- `handleReconnectPeers`: close the existing connection (the source does
not delete it from the map), call `createPeerConnection`, and additionally
create and send an offer when the local id is the smaller one. -/
def handleReconnectPeers (localId : String) (st : ClientState) (fromSocketId : String) :
    ClientState × List OutMsg :=
  if fromSocketId = localId then (st, [])
  else
    let res := createPeerConnection localId st fromSocketId
    if localId < fromSocketId then
      match alookup res.1.peers fromSocketId with
      | some pc =>
        ({ res.1 with peers := aset res.1.peers fromSocketId { pc with localDesc := some "offer" } },
         res.2 ++ [.offer localId fromSocketId])
      | none => (res.1, res.2)
    else
      (res.1, res.2)

/-- `handleOffer`: for an offer addressed to this client, get or create
the peer connection, apply the remote description, replay every buffered
ICE candidate in arrival order, clear the sender's buffer entry, create
the answer, set it as local description and send it back. -/
def handleOffer (localId : String) (st : ClientState) (sender target sdp : String) :
    ClientState × List OutMsg :=
  if target ≠ localId then (st, [])
  else
    let res :=
      match alookup st.peers sender with
      | some _ => (st, ([] : List OutMsg))
      | none => createPeerConnection localId st sender
    match alookup res.1.peers sender with
    | none => res
    | some pc =>
      let buffered := (alookup res.1.buffer sender).getD []
      let pc' := { pc with remoteDesc := some sdp,
                           candidates := pc.candidates ++ buffered,
                           localDesc := some "answer" }
      ({ res.1 with peers := aset res.1.peers sender pc',
                    buffer := aerase res.1.buffer sender },
       res.2 ++ [.answer localId sender])

/-- `handleAnswer`: for an answer addressed to this client with an existing
peer connection, apply the remote description, replay every buffered ICE
candidate in arrival order, and clear the sender's buffer entry. -/
def handleAnswer (localId : String) (st : ClientState) (sender target sdp : String) :
    ClientState :=
  if target ≠ localId then st
  else
    match alookup st.peers sender with
    | none => st
    | some pc =>
      let buffered := (alookup st.buffer sender).getD []
      { st with
        peers := aset st.peers sender
          { pc with remoteDesc := some sdp, candidates := pc.candidates ++ buffered },
        buffer := aerase st.buffer sender }

/-- `handleIceCandidate`: for a candidate addressed to this client, add it
immediately when the peer connection exists and its remote description is
set; otherwise append it to the sender's buffer entry — also when no peer
connection exists at all, so that an early candidate is buffered rather
than dropped. -/
def handleIceCandidate (localId : String) (st : ClientState) (sender target cand : String) :
    ClientState :=
  if target ≠ localId then st
  else
    match alookup st.peers sender with
    | some pc =>
      if pc.remoteDesc.isSome then
        { st with peers := aset st.peers sender { pc with candidates := pc.candidates ++ [cand] } }
      else
        { st with buffer := aset st.buffer sender ((alookup st.buffer sender).getD [] ++ [cand]) }
    | none =>
      { st with buffer := aset st.buffer sender ((alookup st.buffer sender).getD [] ++ [cand]) }

/-- Process a sequence of incoming ICE candidates from `sender`, addressed
to this client, in arrival order. -/
def processIce (localId : String) (st : ClientState) (sender : String) (cands : List String) :
    ClientState :=
  cands.foldl (fun s c => handleIceCandidate localId s sender localId c) st

/-- Decidable check that every offer in an emission list respects the
glare rule: its sender id is lexicographically smaller than its target
id. -/
def offersRespectOrder (out : List OutMsg) : Bool :=
  out.all fun m =>
    match m with
    | .offer s t => decide (s < t)
    | _ => true

/-! ## Join orchestrator (src/hooks/useRoomAccess.tsx and
src/services/WebSocketService.ts). The counters record the externally
visible effects: authorization fetches issued by the hook and `joinRoom`
registrations emitted by the websocket service. -/

/-- Client join state: the hook's `joinInProgress` flag, the service's
`joinedRooms` set, and effect counters. -/
structure JoinSt where
  joinInProgress : Bool
  joinedRooms : List String
  authRequests : Nat
  joinEmits : Nat
deriving Repr, DecidableEq

/-- `WebSocketService.joinRoom`: skip entirely when the room is already in
`joinedRooms`; otherwise emit the `joinRoom` registration and
optimistically record the room as joined. -/
def wsJoinRoom (st : JoinSt) (roomId : String) : JoinSt :=
  if roomId ∈ st.joinedRooms then st
  else { st with joinEmits := st.joinEmits + 1, joinedRooms := roomId :: st.joinedRooms }

/-- The start of the hook's `joinRoom`: a call made while a join is
already in flight returns immediately ("Join already in progress,
ignoring duplicate call"); otherwise the in-flight flag is set and the
room-access authorization fetch is issued. -/
def hookJoinStart (st : JoinSt) : JoinSt :=
  if st.joinInProgress then st
  else { st with joinInProgress := true, authRequests := st.authRequests + 1 }

/-- The hook's success continuation once the authorization fetch returns
ok: register through `WebSocketService.joinRoom` and clear the in-flight
flag. -/
def hookJoinSuccess (st : JoinSt) (roomId : String) : JoinSt :=
  { wsJoinRoom st roomId with joinInProgress := false }

/-! ## Auxiliary definitions used by the statements -/

/-- The deduplicating fold of `getUniqueActiveUsers`, with an explicit
accumulator map. -/
def dedupFold (m : List (String × UserEntry)) (users : List UserEntry) :
    List (String × UserEntry) :=
  users.foldl (fun acc u => aset acc u.id u) m

/-- The last entry of the list whose user id is `k` — the most recently
registered connection of that user, since `joinRoom` appends entries in
registration order. -/
def lastWith (users : List UserEntry) (k : String) : Option UserEntry :=
  match users with
  | [] => none
  | u :: rest =>
    match lastWith rest k with
    | some e => some e
    | none => if u.id = k then some u else none

/-- A private, password-protected room owned by `u1`, used by the concrete
access-control scenarios. -/
def roomC1 : Room :=
  { owner := "u1", isPrivate := true, password := some "p1",
    participants := ["u1"], sharedWith := [] }

/-- A client that already holds a peer connection for the remote id `a`,
used by the concrete glare scenario. -/
def stC4 : ClientState :=
  { peers := [("a", newPeerConn)], buffer := [] }

/-! ## Lemmas about the association maps -/

theorem alookup_append {α : Type} (m₁ m₂ : List (String × α)) (k : String) :
    alookup (m₁ ++ m₂) k = (alookup m₁ k).elim (alookup m₂ k) some := by
  induction m₁ with
  | nil => simp [alookup]
  | cons p m₁ ih =>
    by_cases h : p.1 = k <;> simp [alookup, h, ih]

theorem alookup_map_update {α : Type} (m : List (String × α)) (k : String) (v : α)
    (hk : m.any (fun p => decide (p.1 = k)) = true) :
    alookup (m.map (fun p => if p.1 = k then (k, v) else p)) k = some v := by
  induction m with
  | nil => simp at hk
  | cons p m ih =>
    by_cases h : p.1 = k
    · simp [alookup, h]
    · simp only [List.any_cons, Bool.or_eq_true, decide_eq_true_eq] at hk
      rcases hk with hk | hk
      · exact absurd hk h
      · simp [alookup, h, ih hk]

theorem alookup_aset_self {α : Type} (m : List (String × α)) (k : String) (v : α) :
    alookup (aset m k v) k = some v := by
  unfold aset
  by_cases h : m.any (fun p => decide (p.1 = k)) = true
  · simp only [h, if_true]
    exact alookup_map_update m k v h
  · simp only [h, if_false]
    have hnone : alookup m k = none := by
      induction m with
      | nil => rfl
      | cons p m ih =>
        simp only [List.any_cons, Bool.or_eq_true, decide_eq_true_eq] at h
        push_neg at h
        simp [alookup, h.1, ih (by simpa using h.2)]
    simp [alookup_append, hnone, alookup]

theorem alookup_map_ne {α : Type} (m : List (String × α)) (k k' : String) (v : α)
    (h : k' ≠ k) :
    alookup (m.map (fun p => if p.1 = k then (k, v) else p)) k' = alookup m k' := by
  induction m with
  | nil => rfl
  | cons p m ih =>
    by_cases hp : p.1 = k
    · have hpk : ¬(p.1 = k') := fun hx => h (hx.symm.trans hp)
      have hkk : ¬(k = k') := fun hx => h hx.symm
      simp [alookup, hp, hpk, hkk, ih]
    · by_cases hpk : p.1 = k'
      · simp [alookup, hp, hpk, h]
      · simp [alookup, hp, hpk, h, ih]

theorem alookup_aset_ne {α : Type} (m : List (String × α)) (k k' : String) (v : α)
    (h : k' ≠ k) : alookup (aset m k v) k' = alookup m k' := by
  unfold aset
  by_cases hc : m.any (fun p => decide (p.1 = k)) = true
  · rw [if_pos hc]
    exact alookup_map_ne m k k' v h
  · rw [if_neg hc, alookup_append]
    cases hk : alookup m k' with
    | some v' => simp
    | none =>
      have hkk : ¬(k = k') := fun hx => h hx.symm
      simp [alookup, hkk]

theorem alookup_aerase_self {α : Type} (m : List (String × α)) (k : String) :
    alookup (aerase m k) k = none := by
  induction m with
  | nil => rfl
  | cons p m ih =>
    simp only [aerase] at ih ⊢
    by_cases h : p.1 = k
    · simp only [List.filter_cons, h]
      simpa using ih
    · simp only [List.filter_cons]
      have hcond : decide (p.1 ≠ k) = true := by simp [h]
      rw [hcond, if_pos rfl]
      simpa [alookup, h] using ih

theorem alookup_aerase_ne {α : Type} (m : List (String × α)) (k k' : String)
    (h : k' ≠ k) : alookup (aerase m k) k' = alookup m k' := by
  induction m with
  | nil => rfl
  | cons p m ih =>
    simp only [aerase] at ih ⊢
    by_cases hp : p.1 = k
    · have hpk : ¬(p.1 = k') := fun hx => h (hx.symm.trans hp)
      simp only [List.filter_cons, hp]
      simpa [alookup, hpk] using ih
    · simp only [List.filter_cons]
      have hcond : decide (p.1 ≠ k) = true := by simp [hp]
      rw [hcond, if_pos rfl]
      by_cases hpk : p.1 = k'
      · simp [alookup, hpk]
      · simpa [alookup, hpk] using ih

/-! ## Lemmas about the deduplicated presence view -/

theorem getUniqueActiveUsers_eq_dedupFold (users : List UserEntry) :
    getUniqueActiveUsers users = (dedupFold [] users).map (·.2) := rfl

theorem dedupFold_cons (m : List (String × UserEntry)) (u : UserEntry)
    (users : List UserEntry) :
    dedupFold m (u :: users) = dedupFold (aset m u.id u) users := rfl

theorem alookup_dedupFold (users : List UserEntry) (m : List (String × UserEntry))
    (k : String) :
    alookup (dedupFold m users) k = (lastWith users k).elim (alookup m k) some := by
  induction users generalizing m with
  | nil => simp [dedupFold, lastWith]
  | cons u rest ih =>
    rw [dedupFold_cons, ih]
    cases hl : lastWith rest k with
    | some e => simp [lastWith, hl]
    | none =>
      by_cases hu : u.id = k
      · subst hu
        simp [lastWith, hl, alookup_aset_self]
      · simp [lastWith, hl, hu, alookup_aset_ne m u.id k u (fun hx => hu hx.symm)]

theorem akeys_aset (m : List (String × UserEntry)) (k : String) (v : UserEntry) :
    (aset m k v).map (·.1)
      = if m.any (fun p => decide (p.1 = k)) = true then m.map (·.1) else m.map (·.1) ++ [k] := by
  unfold aset
  by_cases hc : m.any (fun p => decide (p.1 = k)) = true
  · rw [if_pos hc, if_pos hc, List.map_map]
    apply List.map_congr_left
    intro p _
    by_cases hp : p.1 = k <;> simp [hp]
  · rw [if_neg hc, if_neg hc]
    simp

theorem nodup_akeys_dedupFold (users : List UserEntry) (m : List (String × UserEntry))
    (hm : (m.map (·.1)).Nodup) : ((dedupFold m users).map (·.1)).Nodup := by
  induction users generalizing m with
  | nil => exact hm
  | cons u rest ih =>
    rw [dedupFold_cons]
    apply ih
    rw [akeys_aset]
    by_cases hc : m.any (fun p => decide (p.1 = u.id)) = true
    · rw [if_pos hc]; exact hm
    · rw [if_neg hc]
      have hnotin : u.id ∉ m.map (·.1) := by
        intro hmem
        rcases List.mem_map.mp hmem with ⟨p, hp, hpe⟩
        have := List.any_eq_false.mp (Bool.eq_false_iff.mpr hc) p hp
        simp only [decide_eq_true_eq] at this
        exact this hpe
      simp [List.nodup_append, hm, hnotin]

theorem dedupFold_key_eq_id (users : List UserEntry) (m : List (String × UserEntry))
    (hm : ∀ p ∈ m, p.1 = p.2.id) : ∀ p ∈ dedupFold m users, p.1 = p.2.id := by
  induction users generalizing m with
  | nil => exact hm
  | cons u rest ih =>
    rw [dedupFold_cons]
    apply ih
    intro p hp
    unfold aset at hp
    by_cases hc : m.any (fun q => decide (q.1 = u.id)) = true
    · rw [if_pos hc] at hp
      rcases List.mem_map.mp hp with ⟨q, hq, hqe⟩
      by_cases hq1 : q.1 = u.id
      · rw [if_pos hq1] at hqe
        simp [← hqe]
      · rw [if_neg hq1] at hqe
        exact hqe ▸ hm q hq
    · rw [if_neg hc] at hp
      rcases List.mem_append.mp hp with hp | hp
      · exact hm p hp
      · simp only [List.mem_singleton] at hp
        simp [hp]

theorem alookup_of_mem_nodup {α : Type} (m : List (String × α)) (k : String) (v : α)
    (hmem : (k, v) ∈ m) (hnd : (m.map (·.1)).Nodup) : alookup m k = some v := by
  induction m with
  | nil => simp at hmem
  | cons p m ih =>
    simp only [List.map_cons, List.nodup_cons] at hnd
    rcases List.mem_cons.mp hmem with hmem | hmem
    · simp [alookup, ← hmem]
    · have hne : ¬(p.1 = k) := by
        intro hpk
        exact hnd.1 (hpk ▸ List.mem_map.mpr ⟨(k, v), hmem, rfl⟩)
      simp [alookup, hne, ih hmem hnd.2]

theorem mem_of_alookup_eq_some {α : Type} (m : List (String × α)) (k : String) (v : α)
    (h : alookup m k = some v) : (k, v) ∈ m := by
  induction m with
  | nil => simp [alookup] at h
  | cons p m ih =>
    by_cases hp : p.1 = k
    · have h2 : p.2 = v := by simpa [alookup, hp] using h
      exact List.mem_cons.mpr (Or.inl (by rw [← hp, ← h2]))
    · have h2 : alookup m k = some v := by simpa [alookup, hp] using h
      exact List.mem_cons_of_mem _ (ih h2)

theorem lastWith_isSome (users : List UserEntry) (k : String) :
    (lastWith users k).isSome = users.any (fun u => decide (u.id = k)) := by
  induction users with
  | nil => simp [lastWith]
  | cons u rest ih =>
    cases hl : lastWith rest k with
    | some e =>
      have : rest.any (fun u => decide (u.id = k)) = true := by
        rw [← ih, hl]; rfl
      simp [lastWith, hl, this]
    | none =>
      have : rest.any (fun u => decide (u.id = k)) = false := by
        rw [← ih, hl]; rfl
      by_cases hu : u.id = k <;> simp [lastWith, hl, this, hu]

theorem lastWith_mem (users : List UserEntry) (k : String) (e : UserEntry)
    (h : lastWith users k = some e) : e ∈ users ∧ e.id = k := by
  induction users with
  | nil => simp [lastWith] at h
  | cons u rest ih =>
    cases hl : lastWith rest k with
    | some e' =>
      rw [lastWith, hl] at h
      rcases ih (hl.trans h) with ⟨hmem, hid⟩
      exact ⟨List.mem_cons_of_mem _ hmem, hid⟩
    | none =>
      rw [lastWith, hl] at h
      by_cases hu : u.id = k
      · rw [if_pos hu] at h
        cases h
        exact ⟨List.mem_cons_self _ _, hu⟩
      · rw [if_neg hu] at h
        cases h

theorem mem_getUnique_lastWith (users : List UserEntry) (e : UserEntry)
    (h : e ∈ getUniqueActiveUsers users) : lastWith users e.id = some e := by
  rw [getUniqueActiveUsers_eq_dedupFold] at h
  rcases List.mem_map.mp h with ⟨p, hp, hpe⟩
  have hkey : p.1 = p.2.id := dedupFold_key_eq_id users [] (by simp) p hp
  have hnd : ((dedupFold [] users).map (·.1)).Nodup :=
    nodup_akeys_dedupFold users [] (by simp)
  have hlook : alookup (dedupFold [] users) p.1 = some p.2 :=
    alookup_of_mem_nodup _ _ _ hp hnd
  rw [alookup_dedupFold] at hlook
  rw [← hpe, ← hkey]
  cases hl : lastWith users p.1 with
  | some e' =>
    rw [hl] at hlook
    simpa using hlook
  | none =>
    rw [hl] at hlook
    simp [alookup] at hlook

theorem getUnique_ids_nodup (users : List UserEntry) :
    ((getUniqueActiveUsers users).map (·.id)).Nodup := by
  rw [getUniqueActiveUsers_eq_dedupFold, List.map_map]
  have hkey := dedupFold_key_eq_id users [] (by simp)
  have hmaps : (dedupFold [] users).map ((·.id) ∘ (·.2)) = (dedupFold [] users).map (·.1) := by
    apply List.map_congr_left
    intro p hp
    exact (hkey p hp).symm
  rw [hmaps]
  exact nodup_akeys_dedupFold users [] (by simp)

theorem any_id_getUnique (users : List UserEntry) (k : String) :
    ((getUniqueActiveUsers users).any (fun u => decide (u.id = k)))
      = users.any (fun u => decide (u.id = k)) := by
  have hiso := lastWith_isSome users k
  cases hl : lastWith users k with
  | some e =>
    rw [hl] at hiso
    rcases lastWith_mem users k e hl with ⟨_, hid⟩
    have hlook : alookup (dedupFold [] users) k = some e := by
      rw [alookup_dedupFold, hl]
      rfl
    have hmem : (k, e) ∈ dedupFold [] users := mem_of_alookup_eq_some _ _ _ hlook
    have hval : e ∈ getUniqueActiveUsers users := by
      rw [getUniqueActiveUsers_eq_dedupFold]
      exact List.mem_map.mpr ⟨(k, e), hmem, rfl⟩
    have h1 : ((getUniqueActiveUsers users).any (fun u => decide (u.id = k))) = true :=
      List.any_eq_true.mpr ⟨e, hval, by simp [hid]⟩
    rw [h1, ← hiso]
    rfl
  | none =>
    rw [hl] at hiso
    simp only [Option.isSome_none] at hiso
    rw [← hiso]
    rw [Bool.eq_false_iff]
    intro hany
    rcases List.any_eq_true.mp hany with ⟨e, hmem, hid⟩
    simp only [decide_eq_true_eq] at hid
    have hlast := mem_getUnique_lastWith users e hmem
    rw [hid, hl] at hlast
    cases hlast

/-! ## Claim C9 -/

/-- C9: for every state of a room's presence array, the de-duplicated view
`getUniqueActiveUsers` (the one broadcast to clients and used for the
participant count) contains at most one entry per user id, and the entry it
keeps for a user is that user's most recently registered connection — the
last entry with that id in the registration-ordered array. -/
theorem c9_presence_dedup_most_recent (users : List UserEntry) (e : UserEntry)
    (h : e ∈ getUniqueActiveUsers users) :
    ((getUniqueActiveUsers users).map (·.id)).Nodup ∧ lastWith users e.id = some e :=
  ⟨getUnique_ids_nodup users, mem_getUnique_lastWith users e h⟩

/-- Witness for C9 at a concrete three-entry array with a duplicated
user. -/
theorem c9_presence_dedup_most_recent_witness :
    mkEntry "u" "s2" ∈ getUniqueActiveUsers [mkEntry "u" "s1", mkEntry "v" "t", mkEntry "u" "s2"]
    ∧ (((getUniqueActiveUsers
          [mkEntry "u" "s1", mkEntry "v" "t", mkEntry "u" "s2"]).map (·.id)).Nodup
        ∧ lastWith [mkEntry "u" "s1", mkEntry "v" "t", mkEntry "u" "s2"] (mkEntry "u" "s2").id
            = some (mkEntry "u" "s2")) :=
  ⟨by decide, c9_presence_dedup_most_recent _ _ (by decide)⟩

/-! ## Claim C2 -/

/-- C2 counterexample: registering a second connection `s2` for a user who
already has connection `s1` in the room does not leave the prior entry in
place — the handler filters out every existing entry of that user before
pushing the new one, so `(u, s1)` is gone afterwards. -/
theorem c2_register_drops_prior_connection :
    alookup (registerConnection [("r", [mkEntry "u" "s1"])] "r" (mkEntry "u" "s2")) "r"
      = some [mkEntry "u" "s2"]
    ∧ mkEntry "u" "s1"
        ∉ (alookup (registerConnection [("r", [mkEntry "u" "s1"])] "r" (mkEntry "u" "s2"))
            "r").getD [] := by
  decide

/-- C2 amended: registering a connection for a user removes that user's
prior entries and keeps exactly the new one; the entries of every other
user in the room, and every other room, are unchanged. -/
theorem c2_register_keeps_only_newest (rooms : List (String × List UserEntry))
    (roomId : String) (u : UserEntry) :
    ((alookup (registerConnection rooms roomId u) roomId).getD []).filter
        (fun e => decide (e.id ≠ u.id))
      = ((alookup rooms roomId).getD []).filter (fun e => decide (e.id ≠ u.id))
    ∧ ((alookup (registerConnection rooms roomId u) roomId).getD []).filter
        (fun e => decide (e.id = u.id)) = [u]
    ∧ ∀ r', r' ≠ roomId →
        alookup (registerConnection rooms roomId u) r' = alookup rooms r' := by
  have hne : ∀ a : UserEntry, (decide (a.id ≠ u.id) && decide (a.id ≠ u.id))
      = decide (a.id ≠ u.id) := by
    intro a
    by_cases h : a.id = u.id <;> simp [h]
  have hcontra : ∀ a : UserEntry, (decide (a.id = u.id) && decide (a.id ≠ u.id)) = false := by
    intro a
    by_cases h : a.id = u.id <;> simp [h]
  have hfilters : ∀ es : List UserEntry,
      (es.filter (fun e => decide (e.id ≠ u.id)) ++ [u]).filter
          (fun e => decide (e.id ≠ u.id))
        = es.filter (fun e => decide (e.id ≠ u.id))
      ∧ (es.filter (fun e => decide (e.id ≠ u.id)) ++ [u]).filter
          (fun e => decide (e.id = u.id)) = [u] := by
    intro es
    constructor
    · rw [List.filter_append, List.filter_filter]
      have h1 : es.filter (fun a => decide (a.id ≠ u.id) && decide (a.id ≠ u.id))
          = es.filter (fun e => decide (e.id ≠ u.id)) :=
        List.filter_congr (fun a _ => hne a)
      rw [h1]
      simp
    · rw [List.filter_append, List.filter_filter]
      have h1 : es.filter (fun a => decide (a.id = u.id) && decide (a.id ≠ u.id)) = [] := by
        rw [List.filter_eq_nil_iff]
        intro a _
        simp [hcontra a]
      rw [h1]
      simp
  unfold registerConnection
  cases hr : alookup rooms roomId with
  | none =>
    refine ⟨?_, ?_, ?_⟩
    · rw [alookup_aset_self]
      simp only [hr, Option.getD_none, Option.getD_some]
      exact (hfilters []).1
    · rw [alookup_aset_self]
      exact (hfilters []).2
    · intro r' hne'
      exact alookup_aset_ne _ _ _ _ hne'
  | some es =>
    refine ⟨?_, ?_, ?_⟩
    · rw [alookup_aset_self]
      simp only [hr, Option.getD_none, Option.getD_some]
      exact (hfilters es).1
    · rw [alookup_aset_self]
      exact (hfilters es).2
    · intro r' hne'
      exact alookup_aset_ne _ _ _ _ hne'

/-- Witness for C2 (amended) at a concrete registry: the unrelated room
`q` is untouched by a registration in room `r`. -/
theorem c2_register_keeps_only_newest_witness :
    ("q" : String) ≠ "r"
    ∧ alookup (registerConnection [("r", [mkEntry "u" "s1"])] "r" (mkEntry "u" "s2")) "q"
        = alookup [("r", [mkEntry "u" "s1"])] "q" :=
  ⟨by decide,
    (c2_register_keeps_only_newest [("r", [mkEntry "u" "s1"])] "r" (mkEntry "u" "s2")).2.2
      "q" (by decide)⟩

/-! ## Claim C6 -/

/-- C6: every delivery the relay performs goes to the connection whose id
equals the target id, with the sender field stamped to the sending
connection's id; and when the target connection no longer exists, the
relay delivers nothing at all — in particular nothing is broadcast to the
rest of the room and no error is sent back to the sender (the source only
logs to the console in that case). -/
theorem c6_relay_point_to_point (conns : List String) (senderId : String)
    (kind : SignalKind) (roomId target : String) :
    ((relaySignal conns senderId kind roomId target).all
        (fun d => decide (d.recipient = target ∧ d.sender = senderId))) = true
    ∧ (target ∉ conns → relaySignal conns senderId kind roomId target = []) := by
  constructor
  · unfold relaySignal
    by_cases hg : (truthy roomId && truthy target) = true
    · rw [if_pos hg, List.all_eq_true]
      intro d hd
      rcases List.mem_map.mp hd with ⟨c, hc, hcd⟩
      have hct := (List.mem_filter.mp hc).2
      simp only [decide_eq_true_eq] at hct
      rw [← hcd]
      simp [hct]
    · rw [if_neg hg]
      rfl
  · intro h
    unfold relaySignal
    by_cases hg : (truthy roomId && truthy target) = true
    · rw [if_pos hg]
      have hnil : conns.filter (fun c => decide (c = target)) = [] := by
        rw [List.filter_eq_nil_iff]
        intro c hc
        simp only [decide_eq_true_eq]
        intro heq
        exact h (heq ▸ hc)
      rw [hnil]
      rfl
    · rw [if_neg hg]

/-- Witness for C6: relaying to a connection id that is not present
delivers nothing. -/
theorem c6_relay_point_to_point_witness :
    ("zz" : String) ∉ ["a", "b"]
    ∧ relaySignal ["a", "b"] "a" SignalKind.offer "r" "zz" = [] :=
  ⟨by decide, (c6_relay_point_to_point ["a", "b"] "a" SignalKind.offer "r" "zz").2 (by decide)⟩

/-! ## Claim C10 -/

/-- C10: the socket-level `joinRoom` handler destructures only the room id
and the user id, so any two requests that agree on those two fields —
regardless of their password fields, including a correct password versus
none — produce identical outcomes; concretely, a non-owner, non-shared,
non-participant caller of a private password-protected room is rejected
even when supplying the room's correct password. -/
theorem c10_socket_join_password_independent (rooms : List (String × Room))
    (users : List String) (m1 m2 : JoinRoomMsg)
    (h1 : m1.roomId = m2.roomId) (h2 : m1.userId = m2.userId) :
    socketJoinRoomHandler rooms users m1 = socketJoinRoomHandler rooms users m2
    ∧ socketJoinRoomHandler [("r1", roomC1)] ["u1", "u2"]
        { roomId := "r1", userId := "u2", password := some "p1" }
      = SocketJoinOutcome.passwordDenied := by
  constructor
  · obtain ⟨r1, u1, p1⟩ := m1
    obtain ⟨r2, u2, p2⟩ := m2
    have h1' : r1 = r2 := h1
    have h2' : u1 = u2 := h2
    subst h1'
    subst h2'
    rfl
  · decide

/-- Witness for C10: the same request with the correct password and with
no password at all yield the same outcome. -/
theorem c10_socket_join_password_independent_witness :
    socketJoinRoomHandler [("r1", roomC1)] ["u1", "u2"]
        { roomId := "r1", userId := "u2", password := some "p1" }
      = socketJoinRoomHandler [("r1", roomC1)] ["u1", "u2"]
        { roomId := "r1", userId := "u2", password := none } :=
  (c10_socket_join_password_independent [("r1", roomC1)] ["u1", "u2"]
    { roomId := "r1", userId := "u2", password := some "p1" }
    { roomId := "r1", userId := "u2", password := none } rfl rfl).1

/-! ## Claim C8 -/

/-- C8: a duplicate `joinRoom` call while a join for the room is in flight
is a no-op (the hook's `joinInProgress` guard), a `WebSocketService.joinRoom`
for an already-joined room emits nothing (the `joinedRooms` guard), and the
start–duplicate–complete sequence issues exactly one authorization request
and exactly one registration emit. -/
theorem c8_join_idempotent (st : JoinSt) (roomId : String)
    (h1 : st.joinInProgress = false) (h2 : roomId ∉ st.joinedRooms) :
    (hookJoinSuccess (hookJoinStart (hookJoinStart st)) roomId).authRequests
        = st.authRequests + 1
    ∧ (hookJoinSuccess (hookJoinStart (hookJoinStart st)) roomId).joinEmits
        = st.joinEmits + 1
    ∧ (∀ st' : JoinSt, st'.joinInProgress = true → hookJoinStart st' = st')
    ∧ (∀ (st' : JoinSt) (r : String), r ∈ st'.joinedRooms → wsJoinRoom st' r = st') := by
  have hstart : hookJoinStart st
      = { st with joinInProgress := true, authRequests := st.authRequests + 1 } := by
    unfold hookJoinStart
    rw [h1]
    simp
  have hstart2 : hookJoinStart (hookJoinStart st) = hookJoinStart st := by
    rw [hstart]
    unfold hookJoinStart
    simp
  refine ⟨?_, ?_, ?_, ?_⟩
  · rw [hstart2, hstart]
    unfold hookJoinSuccess wsJoinRoom
    simp [h2]
  · rw [hstart2, hstart]
    unfold hookJoinSuccess wsJoinRoom
    simp [h2]
  · intro st' h
    unfold hookJoinStart
    rw [h]
    simp
  · intro st' r h
    unfold wsJoinRoom
    simp [h]

/-- Witness for C8 at the initial client state. -/
theorem c8_join_idempotent_witness :
    (⟨false, [], 0, 0⟩ : JoinSt).joinInProgress = false
    ∧ ("r" : String) ∉ (⟨false, [], 0, 0⟩ : JoinSt).joinedRooms
    ∧ (hookJoinSuccess (hookJoinStart (hookJoinStart (⟨false, [], 0, 0⟩ : JoinSt))) "r").authRequests
        = 0 + 1
    ∧ (hookJoinSuccess (hookJoinStart (hookJoinStart (⟨false, [], 0, 0⟩ : JoinSt))) "r").joinEmits
        = 0 + 1 :=
  ⟨rfl, by decide, (c8_join_idempotent ⟨false, [], 0, 0⟩ "r" rfl (by decide)).1,
    (c8_join_idempotent ⟨false, [], 0, 0⟩ "r" rfl (by decide)).2.1⟩

/-! ## Claim C1 -/

/-- C1 counterexample: the REST join route requires a password from every
caller of a password-protected room — here the room's own owner, calling
join without a password, is rejected with "Password is required" instead
of being admitted. -/
theorem c1_rest_join_owner_needs_password :
    restJoin roomC1 "u1" none = RestJoinResult.passwordMissing := by
  decide

/-- C1 amended: the owner / share-list / recorded-participant bypass holds
only in the socket-level `joinRoom` access check, and there only for rooms
that are both private and password-protected: such a caller is registered
without the handler ever consulting a password. (The REST join route, by
contrast, demands the password from every caller — see the
counterexample.) -/
theorem c1_socket_join_bypasses_password (rooms : List (String × Room))
    (users : List String) (m : JoinRoomMsg) (room : Room)
    (h1 : truthy m.roomId = true) (h2 : truthy m.userId = true)
    (h3 : m.userId ∈ users) (h4 : alookup rooms m.roomId = some room)
    (h5 : room.password.isSome = true) (h6 : room.isPrivate = true)
    (h7 : room.owner = m.userId ∨ m.userId ∈ room.sharedWith ∨ m.userId ∈ room.participants) :
    socketJoinRoomHandler rooms users m
      = SocketJoinOutcome.registered (decide (room.owner = m.userId))
          (decide (m.userId ∉ room.participants)) := by
  unfold socketJoinRoomHandler
  rw [h1, h2]
  simp only [Bool.and_self, not_true, if_false]
  rw [if_pos h3]
  simp only [h4]
  rw [if_pos ⟨h5, h6⟩]
  have hcond : ¬(¬(room.owner = m.userId) ∧ ¬(m.userId ∈ room.sharedWith)
      ∧ ¬(m.userId ∈ room.participants)) := by
    push_neg
    intro ha hb
    rcases h7 with h | h | h
    · exact absurd h ha
    · exact absurd h hb
    · exact h
  rw [if_neg hcond]

/-- Witness for C1 (amended): the owner of the private password-protected
room `roomC1` joins through the socket handler with no password supplied. -/
theorem c1_socket_join_bypasses_password_witness :
    alookup [("r1", roomC1)] "r1" = some roomC1
    ∧ socketJoinRoomHandler [("r1", roomC1)] ["u1"]
        { roomId := "r1", userId := "u1", password := none }
      = SocketJoinOutcome.registered (decide (roomC1.owner = "u1"))
          (decide (("u1" : String) ∉ roomC1.participants)) :=
  ⟨by decide,
    c1_socket_join_bypasses_password [("r1", roomC1)] ["u1"]
      { roomId := "r1", userId := "u1", password := none } roomC1
      rfl rfl (by decide) (by decide) rfl rfl (Or.inl rfl)⟩

/-! ## Claim C4 -/

theorem offersRespectOrder_append (a b : List OutMsg) :
    offersRespectOrder (a ++ b) = (offersRespectOrder a && offersRespectOrder b) := by
  unfold offersRespectOrder
  exact List.all_append

theorem offersRespectOrder_create (l : String) (st : ClientState) (r : String) :
    offersRespectOrder (createPeerConnection l st r).2 = true := by
  unfold createPeerConnection
  cases alookup st.peers r with
  | some pc => rfl
  | none =>
    by_cases hlr : l < r
    · rw [if_pos hlr]
      show (decide (l < r) && true) = true
      simp [hlr]
    · rw [if_neg hlr]
      rfl

/-- C4 counterexample: a client with the larger connection id `b`, holding
a peer connection for `a`, reacts to `a`'s `streamReady` capability change
by creating and sending a renegotiation offer even though `b` is not the
lexicographically smaller side — so both sides of the pair can send
offers. -/
theorem c4_stream_ready_offers_against_order :
    (handleStreamReady "b" stC4 "a").2 = [OutMsg.offer "b" "a"]
    ∧ ¬(("b" : String) < "a") := by
  constructor
  · rfl
  · rw [String.lt_iff_toList_lt]
    decide

/-- C4 amended: the lexicographic glare guard does hold on the other
negotiation-needed triggers — initial connection creation, the
`negotiationneeded` callback, a `connectionRetry` recreate and a
`reconnectPeers` request all send an offer only from the side whose id is
smaller; the `streamReady` renegotiation alone sends an offer from
whichever side receives it, regardless of the order (see the
counterexample). -/
theorem c4_glare_guard_on_other_triggers (l r : String) (st : ClientState) :
    offersRespectOrder (createPeerConnection l st r).2 = true
    ∧ offersRespectOrder (onNegotiationNeeded l st r).2 = true
    ∧ offersRespectOrder (handleConnectionRetry l st r).2 = true
    ∧ offersRespectOrder (handleReconnectPeers l st r).2 = true := by
  refine ⟨offersRespectOrder_create l st r, ?_, ?_, ?_⟩
  · unfold onNegotiationNeeded
    cases alookup st.peers r with
    | none => rfl
    | some pc =>
      dsimp only
      by_cases hlr : l < r
      · rw [if_pos hlr]
        show (decide (l < r) && true) = true
        simp [hlr]
      · rw [if_neg hlr]
        rfl
  · unfold handleConnectionRetry
    exact offersRespectOrder_create l _ r
  · unfold handleReconnectPeers
    by_cases hrl : r = l
    · rw [if_pos hrl]
      rfl
    · rw [if_neg hrl]
      by_cases hlr : l < r
      · rw [if_pos hlr]
        cases alookup (createPeerConnection l st r).1.peers r with
        | none => exact offersRespectOrder_create l st r
        | some pc =>
          dsimp only
          rw [offersRespectOrder_append, offersRespectOrder_create l st r]
          show (true && (decide (l < r) && true)) = true
          simp [hlr]
      · rw [if_neg hlr]
        exact offersRespectOrder_create l st r

/-! ## Claim C7 -/

theorem c7_run_pending (t0 : Nat) (c0 l0 : String) (evs : List (Nat × String × String))
    (w : List (Nat × String × String))
    (h : List.Chain' (fun a b => b.1 < a.1 + saveDelay) ((t0, c0, l0) :: evs)) :
    runCodeChanges ⟨some (t0 + saveDelay, c0, l0), w⟩ evs
      = ⟨some ((evs.getLastD (t0, c0, l0)).1 + saveDelay,
              (evs.getLastD (t0, c0, l0)).2.1, (evs.getLastD (t0, c0, l0)).2.2), w⟩ := by
  induction evs generalizing t0 c0 l0 with
  | nil => simp [runCodeChanges]
  | cons e rest ih =>
    obtain ⟨t1, c1, l1⟩ := e
    rcases List.chain'_cons.mp h with ⟨hR, htail⟩
    have hlt : t1 < t0 + saveDelay := hR
    have hstep : saveCodeToDatabase ⟨some (t0 + saveDelay, c0, l0), w⟩ t1 c1 l1
        = ⟨some (t1 + saveDelay, c1, l1), w⟩ := by
      unfold saveCodeToDatabase flushDue
      have hnle : ¬(t0 + saveDelay ≤ t1) := by omega
      simp [hnle]
    rw [show runCodeChanges ⟨some (t0 + saveDelay, c0, l0), w⟩ ((t1, c1, l1) :: rest)
          = runCodeChanges (saveCodeToDatabase ⟨some (t0 + saveDelay, c0, l0), w⟩ t1 c1 l1) rest
        from rfl,
      hstep, ih t1 c1 l1 htail, List.getLastD_cons]

/-- C7: N successive `codeChange` persistence requests for a room, each
arriving before the previous quiet window has elapsed, produce exactly one
persisted write — containing the last delta and issued one quiet window
after the last event; and the `cursorChange` handler never touches the
persistence state and broadcasts only to connections other than the
sender. -/
theorem c7_debounce_single_write (first : Nat × String × String)
    (rest : List (Nat × String × String))
    (h : List.Chain' (fun a b => b.1 < a.1 + saveDelay) (first :: rest)) :
    (finalizeSaves (runCodeChanges ⟨none, []⟩ (first :: rest))).writes
      = [((rest.getLastD first).1 + saveDelay,
          (rest.getLastD first).2.1, (rest.getLastD first).2.2)]
    ∧ (∀ (conns : List String) (senderConn : String) (st : SaveSt)
          (roomId position userId name : String),
        (cursorChange conns senderConn st roomId position userId name).1 = st
        ∧ ((cursorChange conns senderConn st roomId position userId name).2.all
            (fun d => decide (d.1 ≠ senderConn))) = true) := by
  constructor
  · obtain ⟨t0, c0, l0⟩ := first
    have hfirst : runCodeChanges ⟨none, []⟩ ((t0, c0, l0) :: rest)
        = runCodeChanges ⟨some (t0 + saveDelay, c0, l0), []⟩ rest := rfl
    rw [hfirst, c7_run_pending t0 c0 l0 rest [] h]
    rfl
  · intro conns senderConn st roomId position userId name
    constructor
    · unfold cursorChange
      by_cases hg : (truthy roomId && truthy position && truthy userId) = true
      · rw [if_pos hg]
      · rw [if_neg hg]
    · unfold cursorChange
      by_cases hg : (truthy roomId && truthy position && truthy userId) = true
      · rw [if_pos hg]
        rw [List.all_eq_true]
        intro d hd
        rcases List.mem_map.mp hd with ⟨c, hc, hcd⟩
        have hcs := (List.mem_filter.mp hc).2
        rw [← hcd]
        exact hcs
      · rw [if_neg hg]
        rfl

/-- Witness for C7: two events 100 ms apart coalesce into the single write
of the second delta at 100 + 300 ms, and a concrete cursor update leaves
the persistence state untouched while skipping the sender. -/
theorem c7_debounce_single_write_witness :
    List.Chain' (fun a b => b.1 < a.1 + saveDelay)
      [((0 : Nat), "c0", "js"), ((100 : Nat), "c1", "js")]
    ∧ (finalizeSaves (runCodeChanges ⟨none, []⟩
          [((0 : Nat), "c0", "js"), ((100 : Nat), "c1", "js")])).writes
        = [(([((100 : Nat), "c1", "js")].getLastD ((0 : Nat), "c0", "js")).1 + saveDelay,
            ([((100 : Nat), "c1", "js")].getLastD ((0 : Nat), "c0", "js")).2.1,
            ([((100 : Nat), "c1", "js")].getLastD ((0 : Nat), "c0", "js")).2.2)]
    ∧ (cursorChange ["a", "b"] "a" ⟨none, []⟩ "r" "1:1" "u" "n").1 = ⟨none, []⟩
    ∧ ((cursorChange ["a", "b"] "a" ⟨none, []⟩ "r" "1:1" "u" "n").2.all
        (fun d => decide (d.1 ≠ "a"))) = true := by
  have hch : List.Chain' (fun a b => b.1 < a.1 + saveDelay)
      [((0 : Nat), "c0", "js"), ((100 : Nat), "c1", "js")] := by
    refine List.chain'_cons.mpr ⟨?_, List.chain'_singleton _⟩
    show (100 : Nat) < 0 + saveDelay
    decide
  exact ⟨hch,
    (c7_debounce_single_write ((0 : Nat), "c0", "js") [((100 : Nat), "c1", "js")] hch).1,
    ((c7_debounce_single_write ((0 : Nat), "c0", "js") [((100 : Nat), "c1", "js")]
        hch).2 ["a", "b"] "a" ⟨none, []⟩ "r" "1:1" "u" "n").1,
    ((c7_debounce_single_write ((0 : Nat), "c0", "js") [((100 : Nat), "c1", "js")]
        hch).2 ["a", "b"] "a" ⟨none, []⟩ "r" "1:1" "u" "n").2⟩

/-! ## Claim C5 -/

theorem processIce_buffers (l sender : String) (cands : List String) (st : ClientState)
    (hpc : ∀ pc, alookup st.peers sender = some pc → pc.remoteDesc = none) :
    (processIce l st sender cands).peers = st.peers
    ∧ (alookup (processIce l st sender cands).buffer sender).getD []
        = (alookup st.buffer sender).getD [] ++ cands := by
  induction cands generalizing st with
  | nil => simp [processIce]
  | cons c cs ih =>
    have hstep : handleIceCandidate l st sender l c
        = { st with
            buffer := aset st.buffer sender ((alookup st.buffer sender).getD [] ++ [c]) } := by
      unfold handleIceCandidate
      rw [if_neg (by simp)]
      cases hp : alookup st.peers sender with
      | none => rfl
      | some pc =>
        have hrd : pc.remoteDesc = none := hpc pc hp
        simp [hrd]
    rw [show processIce l st sender (c :: cs)
          = processIce l (handleIceCandidate l st sender l c) sender cs from rfl, hstep]
    have hnext := ih
      { st with buffer := aset st.buffer sender ((alookup st.buffer sender).getD [] ++ [c]) }
      (fun pc hp => hpc pc hp)
    rcases hnext with ⟨h1, h2⟩
    refine ⟨h1, ?_⟩
    rw [h2]
    rw [show alookup ({ st with
          buffer := aset st.buffer sender ((alookup st.buffer sender).getD [] ++ [c]) }
            : ClientState).buffer sender
        = alookup (aset st.buffer sender ((alookup st.buffer sender).getD [] ++ [c])) sender
      from rfl, alookup_aset_self]
    simp

theorem processIce_applies (l sender : String) (cands : List String) (st : ClientState)
    (pc : PeerConn) (hp : alookup st.peers sender = some pc)
    (hrd : pc.remoteDesc.isSome = true) :
    alookup (processIce l st sender cands).peers sender
        = some { pc with candidates := pc.candidates ++ cands }
    ∧ (processIce l st sender cands).buffer = st.buffer := by
  induction cands generalizing st pc with
  | nil =>
    constructor
    · rw [show processIce l st sender [] = st from rfl, hp]
      simp
    · rfl
  | cons c cs ih =>
    have hstep : handleIceCandidate l st sender l c
        = { st with
            peers := aset st.peers sender { pc with candidates := pc.candidates ++ [c] } } := by
      unfold handleIceCandidate
      rw [if_neg (by simp)]
      simp [hp, hrd]
    rw [show processIce l st sender (c :: cs)
          = processIce l (handleIceCandidate l st sender l c) sender cs from rfl, hstep]
    have hp' : alookup ({ st with
          peers := aset st.peers sender { pc with candidates := pc.candidates ++ [c] } }
            : ClientState).peers sender
        = some { pc with candidates := pc.candidates ++ [c] } := alookup_aset_self _ _ _
    have hnext := ih _ { pc with candidates := pc.candidates ++ [c] } hp' hrd
    rcases hnext with ⟨h1, h2⟩
    refine ⟨?_, h2⟩
    rw [h1]
    simp

theorem handleOffer_on_fresh (l sender sdp : String) (st : ClientState)
    (hp : alookup st.peers sender = none) :
    alookup (handleOffer l st sender l sdp).1.peers sender
      = some { remoteDesc := some sdp, localDesc := some "answer",
               candidates := (alookup st.buffer sender).getD [] }
    ∧ alookup (handleOffer l st sender l sdp).1.buffer sender = none := by
  unfold handleOffer
  rw [if_neg (by simp)]
  simp only [hp]
  unfold createPeerConnection
  simp only [hp]
  by_cases hlr : l < sender
  · rw [if_pos hlr]
    dsimp only
    rw [alookup_aset_self]
    dsimp only
    constructor
    · rw [alookup_aset_self]
      simp [newPeerConn]
    · exact alookup_aerase_self _ _
  · rw [if_neg hlr]
    dsimp only
    rw [alookup_aset_self]
    dsimp only
    constructor
    · rw [alookup_aset_self]
      simp [newPeerConn]
    · exact alookup_aerase_self _ _

theorem handleAnswer_applies (l sender sdp : String) (st : ClientState) (pc : PeerConn)
    (hp : alookup st.peers sender = some pc) :
    handleAnswer l st sender l sdp
      = { st with
          peers := aset st.peers sender
            { pc with remoteDesc := some sdp,
                      candidates := pc.candidates ++ (alookup st.buffer sender).getD [] },
          buffer := aerase st.buffer sender } := by
  unfold handleAnswer
  rw [if_neg (by simp)]
  simp [hp]

/-- C5: ICE candidates from a peer that arrive before that peer's remote
description — including candidates arriving while no peer connection
exists at all — are appended to the per-peer buffer in arrival order; when
the remote description is applied (on offer, or on answer for an existing
connection), the buffered candidates are added in the same order and the
buffer entry is cleared, and the resulting connection state is exactly the
one obtained when the candidates arrive after the remote description. -/
theorem c5_ice_buffered_replay_order (l sender sdp : String) (cands : List String)
    (st st2 : ClientState) (pc0 : PeerConn)
    (h1 : alookup st.peers sender = none) (hb : alookup st.buffer sender = none)
    (h2 : alookup st2.peers sender = some pc0) (h3 : pc0.remoteDesc = none)
    (hb2 : alookup st2.buffer sender = none) :
    (alookup (processIce l st sender cands).buffer sender).getD [] = cands
    ∧ alookup (handleOffer l (processIce l st sender cands) sender l sdp).1.peers sender
        = some { remoteDesc := some sdp, localDesc := some "answer", candidates := cands }
    ∧ alookup (handleOffer l (processIce l st sender cands) sender l sdp).1.buffer sender = none
    ∧ alookup (processIce l (handleOffer l st sender l sdp).1 sender cands).peers sender
        = some { remoteDesc := some sdp, localDesc := some "answer", candidates := cands }
    ∧ alookup (handleAnswer l (processIce l st2 sender cands) sender l sdp).peers sender
        = some { pc0 with remoteDesc := some sdp, candidates := pc0.candidates ++ cands }
    ∧ alookup (handleAnswer l (processIce l st2 sender cands) sender l sdp).buffer sender = none
    ∧ alookup (processIce l (handleAnswer l st2 sender l sdp) sender cands).peers sender
        = some { pc0 with remoteDesc := some sdp, candidates := pc0.candidates ++ cands } := by
  have hnopc : ∀ pc, alookup st.peers sender = some pc → pc.remoteDesc = none := by
    intro pc hpx
    rw [h1] at hpx
    cases hpx
  have hbuf := processIce_buffers l sender cands st hnopc
  rcases hbuf with ⟨hpeers, hbufval⟩
  have hbufcands : (alookup (processIce l st sender cands).buffer sender).getD [] = cands := by
    rw [hbufval, hb]
    rfl
  have hfreshA : alookup (processIce l st sender cands).peers sender = none := by
    rw [hpeers]
    exact h1
  have hofferA := handleOffer_on_fresh l sender sdp (processIce l st sender cands) hfreshA
  have hofferB := handleOffer_on_fresh l sender sdp st h1
  have hnopc2 : ∀ pc, alookup st2.peers sender = some pc → pc.remoteDesc = none := by
    intro pc hpx
    rw [h2] at hpx
    cases hpx
    exact h3
  have hbuf2 := processIce_buffers l sender cands st2 hnopc2
  have hpc2 : alookup (processIce l st2 sender cands).peers sender = some pc0 := by
    rw [hbuf2.1]
    exact h2
  have hbufcands2 : (alookup (processIce l st2 sender cands).buffer sender).getD [] = cands := by
    rw [hbuf2.2, hb2]
    rfl
  have hansA := handleAnswer_applies l sender sdp (processIce l st2 sender cands) pc0 hpc2
  have hansB := handleAnswer_applies l sender sdp st2 pc0 h2
  refine ⟨hbufcands, ?_, hofferA.2, ?_, ?_, ?_, ?_⟩
  · rw [hofferA.1, hbufcands]
  · have hpcB : alookup (handleOffer l st sender l sdp).1.peers sender
        = some { remoteDesc := some sdp, localDesc := some "answer",
                 candidates := ([] : List String) } := by
      rw [hofferB.1, hb]
      rfl
    have happ := processIce_applies l sender cands (handleOffer l st sender l sdp).1
      { remoteDesc := some sdp, localDesc := some "answer", candidates := [] } hpcB rfl
    rw [happ.1]
    simp
  · rw [hansA]
    dsimp only
    rw [alookup_aset_self, hbufcands2]
  · rw [hansA]
    dsimp only
    exact alookup_aerase_self _ _
  · rw [hb2] at hansB
    simp only [Option.getD_none, List.append_nil] at hansB
    have hpB2 : alookup (handleAnswer l st2 sender l sdp).peers sender
        = some { pc0 with remoteDesc := some sdp } := by
      rw [hansB]
      dsimp only
      exact alookup_aset_self _ _ _
    have happ2 := processIce_applies l sender cands (handleAnswer l st2 sender l sdp)
      { pc0 with remoteDesc := some sdp } hpB2 rfl
    rw [happ2.1]

/-- Witness for C5: starting from a client with no connection and no
buffer for peer `x` (and a second client that has a fresh connection for
`x` awaiting its answer), two candidates buffered before the remote
description end up applied in order either way. -/
theorem c5_ice_buffered_replay_order_witness :
    (alookup (processIce "me" ⟨[], []⟩ "x" ["c1", "c2"]).buffer "x").getD [] = ["c1", "c2"]
    ∧ alookup (handleOffer "me" (processIce "me" ⟨[], []⟩ "x" ["c1", "c2"]) "x" "me" "S").1.peers
        "x"
      = some { remoteDesc := some "S", localDesc := some "answer", candidates := ["c1", "c2"] }
    ∧ alookup (handleOffer "me" (processIce "me" ⟨[], []⟩ "x" ["c1", "c2"]) "x" "me" "S").1.buffer
        "x" = none
    ∧ alookup (processIce "me" (handleOffer "me" ⟨[], []⟩ "x" "me" "S").1 "x" ["c1", "c2"]).peers
        "x"
      = some { remoteDesc := some "S", localDesc := some "answer", candidates := ["c1", "c2"] }
    ∧ alookup (handleAnswer "me" (processIce "me" ⟨[("x", newPeerConn)], []⟩ "x" ["c1", "c2"])
        "x" "me" "S").peers "x"
      = some { newPeerConn with
                remoteDesc := some "S",
                candidates := newPeerConn.candidates ++ ["c1", "c2"] }
    ∧ alookup (handleAnswer "me" (processIce "me" ⟨[("x", newPeerConn)], []⟩ "x" ["c1", "c2"])
        "x" "me" "S").buffer "x" = none
    ∧ alookup (processIce "me" (handleAnswer "me" ⟨[("x", newPeerConn)], []⟩ "x" "me" "S")
        "x" ["c1", "c2"]).peers "x"
      = some { newPeerConn with
                remoteDesc := some "S",
                candidates := newPeerConn.candidates ++ ["c1", "c2"] } :=
  c5_ice_buffered_replay_order "me" "x" "S" ["c1", "c2"] ⟨[], []⟩ ⟨[("x", newPeerConn)], []⟩
    newPeerConn rfl rfl rfl rfl rfl

/-! ## Claim C3 -/

theorem disconnectRoomStep_events_none (roomId : String) (users : List UserEntry) (s : String)
    (hf : users.find? (fun u => decide (u.socketId = s)) = none) :
    (disconnectRoomStep roomId users s).2 = [] := by
  unfold disconnectRoomStep
  rw [hf]

theorem disconnectRoomStep_events_some (roomId : String) (users : List UserEntry) (s : String)
    (dU : UserEntry) (hf : users.find? (fun u => decide (u.socketId = s)) = some dU) :
    (disconnectRoomStep roomId users s).2
      = if (users.filter (fun u => decide (u.socketId ≠ s))).isEmpty then []
        else
          (if (getUniqueActiveUsers (users.filter (fun u => decide (u.socketId ≠ s)))).any
              (fun u => decide (u.id = dU.id)) then ([] : List Emitted)
           else [Emitted.userLeft roomId dU.id
                  (getUniqueActiveUsers (users.filter (fun u => decide (u.socketId ≠ s))))])
          ++ countEvents roomId (users.filter (fun u => decide (u.socketId ≠ s))) := by
  unfold disconnectRoomStep
  rw [hf]
  dsimp only
  by_cases hup : ((users.filter (fun u => decide (u.socketId ≠ s))).isEmpty = true)
  · rw [if_pos hup, if_pos hup]
  · rw [if_neg hup, if_neg hup]

theorem any_isUserLeft_countEvents (roomId : String) (users : List UserEntry) :
    (countEvents roomId users).any isUserLeft = false := rfl

/-- C3 counterexample: a reachable registry state — a single user `u` with
its single connection `s1` in room `r` — where the disconnect of `s1`
removes that user's last active connection, yet no `userLeft` event is
emitted: the handler deletes the now-empty room silently. -/
theorem c3_last_disconnect_of_empty_room_is_silent :
    registerConnection [] "r" (mkEntry "u" "s1") = [("r", [mkEntry "u" "s1"])]
    ∧ (disconnectStep [("r", [mkEntry "u" "s1"])] "s1").2.any isUserLeft = false := by
  decide

/-- C3 amended: for the disconnect handler, `userLeft` is emitted exactly
when the removed connection is its user's last one *and* the room retains
at least one other connection (a disconnect that empties the room deletes
it silently); the `leaveRoom` handler instead emits `userLeft`
unconditionally whenever the room is tracked; and in the two-tab scenario
the observable outcome still matches the spec — `userLeft` fires once,
after the second disconnect, never after the first. -/
theorem c3_user_left_iff_last_connection_and_room_nonempty
    (roomId : String) (users : List UserEntry) (s : String)
    (rooms : List (String × List UserEntry)) (uid : String)
    (hnd : (users.map (·.socketId)).Nodup)
    (h1 : truthy roomId = true) (h2 : truthy uid = true)
    (h3 : (alookup rooms roomId).isSome = true) :
    (((disconnectRoomStep roomId users s).2.any isUserLeft) = true ↔
      ∃ e ∈ users, e.socketId = s ∧ (∀ e' ∈ users, e'.id = e.id → e'.socketId = s)
        ∧ ∃ o ∈ users, o.socketId ≠ s)
    ∧ ((leaveRoomStep rooms roomId uid s).2.any isUserLeft) = true
    ∧ ((disconnectStep [("r", [mkEntry "u1" "a", mkEntry "u2" "s2"])] "s1").2.any
          isUserLeft = false
        ∧ (disconnectStep
            (disconnectStep [("r", [mkEntry "u1" "a", mkEntry "u2" "s2"])] "s1").1
            "s2").2.any isUserLeft = true) := by
  refine ⟨?_, ?_, by decide⟩
  · cases hf : users.find? (fun u => decide (u.socketId = s)) with
    | none =>
      rw [disconnectRoomStep_events_none roomId users s hf]
      apply iff_of_false (by simp)
      rintro ⟨e, he, hes, -, -⟩
      have hne := List.find?_eq_none.mp hf e he
      simp only [decide_eq_true_eq] at hne
      exact hne hes
    | some dU =>
      have hdUs : dU.socketId = s := by
        have := List.find?_some hf
        simpa using this
      have hdUm : dU ∈ users := List.mem_of_find?_eq_some hf
      rw [disconnectRoomStep_events_some roomId users s dU hf]
      by_cases hup : ((users.filter (fun u => decide (u.socketId ≠ s))).isEmpty = true)
      · rw [if_pos hup]
        apply iff_of_false (by simp)
        rintro ⟨e, he, hes, hlast, o, ho, hos⟩
        have hmem : o ∈ users.filter (fun u => decide (u.socketId ≠ s)) :=
          List.mem_filter.mpr ⟨ho, by simpa using hos⟩
        rw [List.isEmpty_iff.mp hup] at hmem
        cases hmem
      · rw [if_neg hup]
        by_cases hsa : ((getUniqueActiveUsers
            (users.filter (fun u => decide (u.socketId ≠ s)))).any
              (fun u => decide (u.id = dU.id)) = true)
        · rw [if_pos hsa]
          apply iff_of_false (by simp [any_isUserLeft_countEvents])
          rintro ⟨e, he, hes, hlast, -, -, -⟩
          have hedU : e = dU :=
            List.inj_on_of_nodup_map hnd he hdUm (by rw [hes, hdUs])
          rw [any_id_getUnique] at hsa
          rcases List.any_eq_true.mp hsa with ⟨e', he', hid⟩
          simp only [decide_eq_true_eq] at hid
          rcases List.mem_filter.mp he' with ⟨he'u, he's⟩
          simp only [decide_eq_true_eq] at he's
          exact he's (hlast e' he'u (by rw [hid, hedU]))
        · rw [if_neg hsa]
          apply iff_of_true (by simp [isUserLeft])
          refine ⟨dU, hdUm, hdUs, ?_, ?_⟩
          · intro e' he' hid
            by_contra hne
            have hmem : e' ∈ users.filter (fun u => decide (u.socketId ≠ s)) :=
              List.mem_filter.mpr ⟨he', by simpa using hne⟩
            have hany : (users.filter (fun u => decide (u.socketId ≠ s))).any
                (fun u => decide (u.id = dU.id)) = true :=
              List.any_eq_true.mpr ⟨e', hmem, by simp [hid]⟩
            rw [← any_id_getUnique] at hany
            exact hsa hany
          · have hne : users.filter (fun u => decide (u.socketId ≠ s)) ≠ [] := by
              intro hnil
              rw [hnil] at hup
              exact hup rfl
            rcases List.exists_mem_of_ne_nil _ hne with ⟨o, ho⟩
            rcases List.mem_filter.mp ho with ⟨hou, hos⟩
            exact ⟨o, hou, by simpa using hos⟩
  · unfold leaveRoomStep
    rw [if_pos (by simp [h1, h2, h3])]
    simp [isUserLeft]

/-- Witness for C3 (amended) at a concrete two-user room: disconnecting
`u2`'s only connection — with `u1` still present — emits `userLeft`
exactly as the biconditional predicts, and a concrete `leaveRoom` emits
unconditionally. -/
theorem c3_user_left_iff_witness :
    ([mkEntry "u1" "a", mkEntry "u2" "b"].map (·.socketId)).Nodup
    ∧ (((disconnectRoomStep "r" [mkEntry "u1" "a", mkEntry "u2" "b"] "b").2.any isUserLeft)
          = true ↔
        ∃ e ∈ [mkEntry "u1" "a", mkEntry "u2" "b"], e.socketId = "b"
          ∧ (∀ e' ∈ [mkEntry "u1" "a", mkEntry "u2" "b"], e'.id = e.id → e'.socketId = "b")
          ∧ ∃ o ∈ [mkEntry "u1" "a", mkEntry "u2" "b"], o.socketId ≠ "b")
    ∧ ((leaveRoomStep [("r", [mkEntry "u1" "a", mkEntry "u2" "b"])] "r" "u2" "b").2.any
        isUserLeft) = true := by
  have h := c3_user_left_iff_last_connection_and_room_nonempty "r"
    [mkEntry "u1" "a", mkEntry "u2" "b"] "b" [("r", [mkEntry "u1" "a", mkEntry "u2" "b"])] "u2"
    (by decide) rfl rfl (by decide)
  exact ⟨by decide, h.1, h.2.1⟩

end ChatCode
